import Mathlib

/-!
Shallow embedding of the diffusion beta-schedule engine
(`linspace`, `getBetas`, `calculateSchedule`, `solveBetaEndForSNR`)
over the real numbers, together with proofs settling the spec claims.
JavaScript numbers are modelled as reals; `Math.floor` is `Int.floor`,
`Math.sqrt` is `Real.sqrt`, `Math.log2`/`Math.log10` are `Real.logb`,
`Math.pow(2, x)` is real exponentiation, and the JS falsy-test
`x || 1e-12` on a number is `if x = 0 then 1e-12 else x`.
-/

namespace BetaSchedule

open Real

/-- The closed set of schedule families (enum `ScheduleType` in the source). -/
inductive ScheduleType
  | LINEAR
  | QUAD
  | SQRT
  | CONST
  | RECIP
  | LOG
  | EXP

/-- Input parameter record (`DiffusionParams` in the source). -/
structure DiffusionParams where
  betaStart : ℝ
  betaEnd : ℝ
  numTimesteps : ℝ
  schedule : ScheduleType

/-- Per-step output record (`TimestepData` in the source). -/
structure TimestepData where
  t : ℕ
  beta : ℝ
  alpha : ℝ
  alphaBar : ℝ
  oneMinusAlphaBar : ℝ
  sqrtAlphaBar : ℝ
  sqrtOneMinusAlphaBar : ℝ
  snr : ℝ
  snrDb : ℝ

/-- `linspace(start, stop, n)`: `count = Math.max(1, Math.floor(n))` values
spaced linearly between `start` and `stop`, computed as `start + step * i`. -/
noncomputable def linspace (start stop n : ℝ) : List ℝ :=
  let count := (max 1 ⌊n⌋).toNat
  if count < 2 then [start]
  else
    let step := (stop - start) / ((count : ℝ) - 1)
    (List.range count).map (fun (i : ℕ) => start + step * (i : ℝ))

/-- `getBetas(params)`: dispatch on the schedule family. -/
noncomputable def getBetas (p : DiffusionParams) : List ℝ :=
  let n := (max 1 ⌊p.numTimesteps⌋).toNat
  match p.schedule with
  | .LINEAR => linspace p.betaStart p.betaEnd n
  | .QUAD =>
      (linspace (Real.sqrt p.betaStart) (Real.sqrt p.betaEnd) n).map (fun v => v * v)
  | .SQRT =>
      (linspace (p.betaStart ^ 2) (p.betaEnd ^ 2) n).map (fun v => Real.sqrt v)
  | .CONST => List.replicate n p.betaEnd
  | .RECIP => (linspace (n : ℝ) 1 (n : ℝ)).map (fun v => p.betaEnd * (1 / v))
  | .LOG =>
      let logStart := Real.logb 2 (max 1e-10 p.betaStart)
      let logEnd := Real.logb 2 (max 1e-10 p.betaEnd)
      (linspace logStart logEnd n).map (fun v => (2 : ℝ) ^ v)
  | .EXP =>
      let expStart := (2 : ℝ) ^ p.betaStart
      let expEnd := (2 : ℝ) ^ p.betaEnd
      (linspace expStart expEnd n).map (fun v => Real.logb 2 v)

/-- One loop body of `calculateSchedule`: builds the record for step `t`
from the step's `beta` and the already-updated running product `abar`. -/
noncomputable def mkRecord (t : ℕ) (beta abar : ℝ) : TimestepData :=
  let oneMinusAlphaBar := 1 - abar
  let snr := abar / (if oneMinusAlphaBar = 0 then 1e-12 else oneMinusAlphaBar)
  let snrDb := 10 * Real.logb 10 (max 1e-20 snr)
  { t := t
    beta := beta
    alpha := 1 - beta
    alphaBar := abar
    oneMinusAlphaBar := oneMinusAlphaBar
    sqrtAlphaBar := Real.sqrt abar
    sqrtOneMinusAlphaBar := Real.sqrt oneMinusAlphaBar
    snr := snr
    snrDb := snrDb }

/-- The loop of `calculateSchedule` over the beta list, carrying the
1-based step counter `t` and the running cumulative product `abar`
(`currentAlphaBar` in the source, updated by `currentAlphaBar *= alpha`). -/
noncomputable def scheduleAux (t : ℕ) (abar : ℝ) : List ℝ → List TimestepData
  | [] => []
  | b :: rest => mkRecord t b (abar * (1 - b)) :: scheduleAux (t + 1) (abar * (1 - b)) rest

/-- The Schedule Evaluator applied to an arbitrary beta sequence:
the loop of `calculateSchedule` seeded with `t = 1`, `currentAlphaBar = 1.0`. -/
noncomputable def scheduleFromBetas (betas : List ℝ) : List TimestepData :=
  scheduleAux 1 1 betas

/-- `calculateSchedule(params)` (the spec's `generateSchedule`):
`getBetas` followed by the evaluation loop. -/
noncomputable def calculateSchedule (p : DiffusionParams) : List TimestepData :=
  scheduleFromBetas (getBetas p)

/-- Placeholder record used to read the last element of a schedule list
(the source indexes `data[data.length - 1]`; all schedules are nonempty). -/
noncomputable def defaultRecord : TimestepData :=
  ⟨0, 0, 0, 0, 0, 0, 0, 0, 0⟩

/-- Terminal `snrDb` of the schedule for given parameters
(`data[data.length - 1].snrDb` in the source). -/
noncomputable def lastSnrDb (p : DiffusionParams) : ℝ :=
  ((calculateSchedule p).getLastD defaultRecord).snrDb

/-- One iteration of the bisection loop in `solveBetaEndForSNR`, acting on
the pair `(low, high)`. -/
noncomputable def solveStep (targetSnrDb betaStart numTimesteps : ℝ)
    (schedule : ScheduleType) (lh : ℝ × ℝ) : ℝ × ℝ :=
  let mid := (lh.1 + lh.2) / 2
  let finalSnrDb := lastSnrDb ⟨betaStart, mid, numTimesteps, schedule⟩
  if finalSnrDb > targetSnrDb then (mid, lh.2) else (lh.1, mid)

/-- `solveBetaEndForSNR`: 40 fixed bisection iterations from
`low = 0.0000001`, `high = 0.999`; returns the final `high`. -/
noncomputable def solveBetaEndForSNR (targetSnrDb betaStart numTimesteps : ℝ)
    (schedule : ScheduleType) : ℝ :=
  ((solveStep targetSnrDb betaStart numTimesteps schedule)^[40] (0.0000001, 0.999)).2

/-! ### Structural lemmas about the evaluator loop -/

theorem scheduleAux_length (betas : List ℝ) (t : ℕ) (a : ℝ) :
    (scheduleAux t a betas).length = betas.length := by
  induction betas generalizing t a with
  | nil => rfl
  | cons b rest ih => simp [scheduleAux, ih]

theorem scheduleAux_get (betas : List ℝ) (t : ℕ) (a : ℝ) (i : ℕ)
    (h : i < (scheduleAux t a betas).length) (h2 : i < betas.length) :
    (scheduleAux t a betas).get ⟨i, h⟩ =
      mkRecord (t + i) (betas.get ⟨i, h2⟩)
        (a * ((betas.take (i + 1)).map (fun b => 1 - b)).prod) := by
  induction betas generalizing t a i with
  | nil => simp at h2
  | cons b rest ih =>
    cases i with
    | zero =>
      simp [scheduleAux, List.take]
    | succ j =>
      have hj : j < rest.length := by simpa using h2
      have hj' : j < (scheduleAux (t + 1) (a * (1 - b)) rest).length := by
        rw [scheduleAux_length]; exact hj
      have step : (scheduleAux t a (b :: rest)).get ⟨j + 1, h⟩ =
          (scheduleAux (t + 1) (a * (1 - b)) rest).get ⟨j, hj'⟩ := rfl
      rw [step, ih (t + 1) (a * (1 - b)) j hj' hj]
      have harg : a * (1 - b) * ((rest.take (j + 1)).map (fun x => 1 - x)).prod =
          a * (((b :: rest).take (j + 1 + 1)).map (fun x => 1 - x)).prod := by
        simp [List.take, mul_assoc]
      rw [harg]
      have ht : t + 1 + j = t + (j + 1) := by omega
      rw [ht]
      rfl

theorem scheduleFromBetas_length (betas : List ℝ) :
    (scheduleFromBetas betas).length = betas.length :=
  scheduleAux_length betas 1 1

theorem scheduleFromBetas_get (betas : List ℝ) (i : ℕ)
    (h : i < (scheduleFromBetas betas).length) (h2 : i < betas.length) :
    (scheduleFromBetas betas).get ⟨i, h⟩ =
      mkRecord (i + 1) (betas.get ⟨i, h2⟩)
        (((betas.take (i + 1)).map (fun b => 1 - b)).prod) := by
  have := scheduleAux_get betas 1 1 i h h2
  simpa [Nat.add_comm] using this

/-! ### Structural lemmas about `linspace` -/

theorem one_le_count (n : ℝ) : 1 ≤ (max 1 ⌊n⌋).toNat := by
  have h1 : (1 : ℤ) ≤ max 1 ⌊n⌋ := le_max_left _ _
  omega

theorem linspace_length (start stop n : ℝ) :
    (linspace start stop n).length = (max 1 ⌊n⌋).toNat := by
  unfold linspace
  by_cases h : (max 1 ⌊n⌋).toNat < 2
  · have h1 := one_le_count n
    rw [if_pos h, List.length_singleton]
    omega
  · rw [if_neg h, List.length_map, List.length_range]

theorem linspace_eq_map (start stop n : ℝ) (h2 : 2 ≤ (max 1 ⌊n⌋).toNat) :
    linspace start stop n = (List.range ((max 1 ⌊n⌋).toNat)).map
      (fun (i : ℕ) =>
        start + (stop - start) / (((max 1 ⌊n⌋).toNat : ℝ) - 1) * (i : ℝ)) := by
  unfold linspace
  rw [if_neg (by omega)]

theorem count_natCast (n : ℕ) (hn : 1 ≤ n) : (max 1 ⌊(n : ℝ)⌋).toNat = n := by
  rw [Int.floor_natCast]
  omega

theorem linspace_eq_single (start stop n : ℝ) (h : (max 1 ⌊n⌋).toNat < 2) :
    linspace start stop n = [start] := by
  unfold linspace
  simp [h]

theorem linspace_get (start stop n : ℝ) (h2 : 2 ≤ (max 1 ⌊n⌋).toNat) (i : ℕ)
    (h : i < (linspace start stop n).length) :
    (linspace start stop n).get ⟨i, h⟩ =
      start + (stop - start) / (((max 1 ⌊n⌋).toNat : ℝ) - 1) * (i : ℝ) := by
  rw [List.get_eq_getElem]
  simp only [linspace_eq_map start stop n h2, List.getElem_map, List.getElem_range]

/-- C5: `linspace` returns exactly `max(1, floor(n))` values; a single
`[start]` when that count is 1, otherwise `start + step * i` at index `i`
with `step = (stop − start)/(count − 1)`, so index 0 holds `start` and the
last index holds `stop` exactly; the function is total. -/
theorem linspace_spec (start stop n : ℝ) (c : ℕ) (hc : c = (max 1 ⌊n⌋).toNat) :
    (linspace start stop n).length = c ∧
    (c = 1 → linspace start stop n = [start]) ∧
    (2 ≤ c → ∀ i (h : i < (linspace start stop n).length),
      (linspace start stop n).get ⟨i, h⟩ =
        start + (stop - start) / ((c : ℝ) - 1) * (i : ℝ)) ∧
    (2 ≤ c → ∀ (h0 : 0 < (linspace start stop n).length)
      (hl : c - 1 < (linspace start stop n).length),
      (linspace start stop n).get ⟨0, h0⟩ = start ∧
      (linspace start stop n).get ⟨c - 1, hl⟩ = stop) := by
  subst hc
  refine ⟨linspace_length start stop n, ?_, ?_, ?_⟩
  · intro h1
    exact linspace_eq_single start stop n (by omega)
  · intro h2 i h
    exact linspace_get start stop n h2 i h
  · intro h2 h0 hl
    constructor
    · rw [linspace_get start stop n h2 0 h0]
      simp
    · rw [linspace_get start stop n h2 ((max 1 ⌊n⌋).toNat - 1) hl]
      have hne : ((((max 1 ⌊n⌋).toNat : ℝ)) - 1) ≠ 0 := by
        have : (2 : ℝ) ≤ ((max 1 ⌊n⌋).toNat : ℝ) := by exact_mod_cast h2
        linarith
      have hcast : (((max 1 ⌊n⌋).toNat - 1 : ℕ) : ℝ) = ((max 1 ⌊n⌋).toNat : ℝ) - 1 := by
        have : (1 : ℕ) ≤ (max 1 ⌊n⌋).toNat := one_le_count n
        push_cast [this]
        ring
      rw [hcast, div_mul_cancel₀ _ hne]
      ring

/-- Witness for C5 at `start = 2`, `stop = 5`, `n = 4`. -/
theorem linspace_spec_witness :
    (linspace 2 5 4).length = 4 ∧
    ((linspace 2 5 4).get ⟨0, by rw [linspace_length]; norm_num⟩ = 2 ∧
     (linspace 2 5 4).get ⟨3, by rw [linspace_length]; norm_num⟩ = 5) := by
  have hc : (4 : ℕ) = (max 1 ⌊(4 : ℝ)⌋).toNat := by
    have h4 : ⌊(4 : ℝ)⌋ = (4 : ℤ) := by norm_num
    rw [h4]
    rfl
  have h := linspace_spec 2 5 4 4 hc
  refine ⟨h.1, ?_⟩
  have h4 := h.2.2.2 (by norm_num)
  exact h4 (by rw [linspace_length]; norm_num) (by rw [linspace_length]; norm_num)

/-- C1: for every beta sequence the evaluator produces one record per beta
in order: at 0-based index `i`, `t = i + 1`, `beta` is the i-th beta,
`alpha = 1 − beta`, `alphaBar` is the cumulative product of the alphas up
to and including step `i` (seeded at 1), `oneMinusAlphaBar = 1 − alphaBar`,
and the two square-root fields are the square roots of those. -/
theorem calculateSchedule_records (betas : List ℝ) :
    (scheduleFromBetas betas).length = betas.length ∧
    ∀ i (h : i < (scheduleFromBetas betas).length) (h2 : i < betas.length),
      ((scheduleFromBetas betas).get ⟨i, h⟩).t = i + 1 ∧
      ((scheduleFromBetas betas).get ⟨i, h⟩).beta = betas.get ⟨i, h2⟩ ∧
      ((scheduleFromBetas betas).get ⟨i, h⟩).alpha = 1 - betas.get ⟨i, h2⟩ ∧
      ((scheduleFromBetas betas).get ⟨i, h⟩).alphaBar =
        ((betas.take (i + 1)).map (fun b => 1 - b)).prod ∧
      ((scheduleFromBetas betas).get ⟨i, h⟩).oneMinusAlphaBar =
        1 - ((scheduleFromBetas betas).get ⟨i, h⟩).alphaBar ∧
      ((scheduleFromBetas betas).get ⟨i, h⟩).sqrtAlphaBar =
        Real.sqrt ((scheduleFromBetas betas).get ⟨i, h⟩).alphaBar ∧
      ((scheduleFromBetas betas).get ⟨i, h⟩).sqrtOneMinusAlphaBar =
        Real.sqrt ((scheduleFromBetas betas).get ⟨i, h⟩).oneMinusAlphaBar := by
  refine ⟨scheduleFromBetas_length betas, ?_⟩
  intro i h h2
  rw [scheduleFromBetas_get betas i h h2]
  simp [mkRecord]

/-- Witness for C1 at the beta sequence `[1/2, 1/3]`, index 1. -/
theorem calculateSchedule_records_witness :
    ((scheduleFromBetas [(1 : ℝ)/2, 1/3]).get
        ⟨1, by rw [scheduleFromBetas_length]; norm_num⟩).t = 2 ∧
    ((scheduleFromBetas [(1 : ℝ)/2, 1/3]).get
        ⟨1, by rw [scheduleFromBetas_length]; norm_num⟩).alphaBar = 1/3 := by
  have h := (calculateSchedule_records [(1 : ℝ)/2, 1/3]).2 1
    (by rw [scheduleFromBetas_length]; norm_num) (by norm_num)
  refine ⟨h.1, ?_⟩
  rw [h.2.2.2.1]
  norm_num

/-! ### Lengths of the generated beta sequences -/

theorem getBetas_length (p : DiffusionParams) :
    (getBetas p).length = (max 1 ⌊p.numTimesteps⌋).toNat := by
  obtain ⟨bs, be, nts, sched⟩ := p
  have hn : 1 ≤ (max 1 ⌊nts⌋).toNat := one_le_count _
  have hcount := count_natCast ((max 1 ⌊nts⌋).toNat) hn
  unfold getBetas
  cases sched <;>
    simp only [linspace_length, List.length_map, List.length_replicate, hcount]

/-- C2: for every parameter record (any family, any real bounds, any
numeric step count) the generator-plus-evaluator pipeline returns exactly
`max(1, floor(numTimesteps))` records with contiguous `t = 1..N`; as a
total function of its inputs it never throws. -/
theorem generateSchedule_spec (p : DiffusionParams) :
    (calculateSchedule p).length = (max 1 ⌊p.numTimesteps⌋).toNat ∧
    ∀ i (h : i < (calculateSchedule p).length),
      ((calculateSchedule p).get ⟨i, h⟩).t = i + 1 := by
  constructor
  · rw [calculateSchedule, scheduleFromBetas_length, getBetas_length]
  · intro i h
    have h2 : i < (getBetas p).length := by
      rwa [calculateSchedule, scheduleFromBetas_length] at h
    show ((scheduleFromBetas (getBetas p)).get ⟨i, h⟩).t = i + 1
    rw [scheduleFromBetas_get (getBetas p) i h h2]
    rfl

/-- Witness for C2 at `betaStart = 0.1`, `betaEnd = 0.2`, `numTimesteps = 3`,
LINEAR family, index 1. -/
theorem generateSchedule_spec_witness :
    (calculateSchedule ⟨0.1, 0.2, 3, ScheduleType.LINEAR⟩).length = 3 ∧
    ((calculateSchedule ⟨0.1, 0.2, 3, ScheduleType.LINEAR⟩).get
      ⟨1, by
        rw [(generateSchedule_spec ⟨0.1, 0.2, 3, ScheduleType.LINEAR⟩).1]
        rw [show ⌊(3 : ℝ)⌋ = (3 : ℤ) by norm_num]
        decide⟩).t = 2 := by
  have h3 : (max 1 ⌊(3 : ℝ)⌋).toNat = 3 := by
    rw [show ⌊(3 : ℝ)⌋ = (3 : ℤ) by norm_num]
    rfl
  have h := generateSchedule_spec ⟨0.1, 0.2, 3, ScheduleType.LINEAR⟩
  exact ⟨h.1.trans h3, h.2 1 _⟩

/-- C4: in every record, `snr` is `alphaBar` divided by `oneMinusAlphaBar`,
with `1e-12` substituted exactly when `oneMinusAlphaBar` is exactly zero,
and `snrDb = 10 * log10(max(1e-20, snr))`; the evaluator is a total
function, raising no exception for any beta sequence. -/
theorem snr_fields (betas : List ℝ) (i : ℕ)
    (h : i < (scheduleFromBetas betas).length) :
    ((scheduleFromBetas betas).get ⟨i, h⟩).snr =
      ((scheduleFromBetas betas).get ⟨i, h⟩).alphaBar /
        (if ((scheduleFromBetas betas).get ⟨i, h⟩).oneMinusAlphaBar = 0 then 1e-12
         else ((scheduleFromBetas betas).get ⟨i, h⟩).oneMinusAlphaBar) ∧
    ((scheduleFromBetas betas).get ⟨i, h⟩).snrDb =
      10 * Real.logb 10 (max 1e-20 ((scheduleFromBetas betas).get ⟨i, h⟩).snr) := by
  have h2 : i < betas.length := by rwa [scheduleFromBetas_length] at h
  rw [scheduleFromBetas_get betas i h h2]
  exact ⟨rfl, rfl⟩

/-- Witness for C4 at the beta sequence `[1/2]`, index 0. -/
theorem snr_fields_witness :
    ((scheduleFromBetas [(1 : ℝ)/2]).get
        ⟨0, by rw [scheduleFromBetas_length]; norm_num⟩).snrDb =
      10 * Real.logb 10
        (max 1e-20 ((scheduleFromBetas [(1 : ℝ)/2]).get
          ⟨0, by rw [scheduleFromBetas_length]; norm_num⟩).snr) :=
  (snr_fields [(1 : ℝ)/2] 0 (by rw [scheduleFromBetas_length]; norm_num)).2

/-! ### The −200 dB floor -/

theorem logb_ten_small : Real.logb 10 (1e-20 : ℝ) = -20 := by
  have h1 : (1e-20 : ℝ) = ((10 : ℝ) ^ (20 : ℕ))⁻¹ := by norm_num
  rw [h1, Real.logb_inv, Real.logb_pow, Real.logb_self_eq_one (by norm_num)]
  norm_num

theorem mkRecord_snrDb_ge (t : ℕ) (b a : ℝ) : -200 ≤ (mkRecord t b a).snrDb := by
  have hx : (0 : ℝ) < 1e-20 := by norm_num
  have hle : Real.logb 10 (1e-20 : ℝ) ≤
      Real.logb 10 (max 1e-20 ((mkRecord t b a).snr)) :=
    Real.logb_le_logb_of_le (by norm_num) hx (le_max_left _ _)
  have : (mkRecord t b a).snrDb = 10 * Real.logb 10 (max 1e-20 ((mkRecord t b a).snr)) := rfl
  rw [this]
  rw [logb_ten_small] at hle
  linarith

theorem scheduleAux_snrDb_ge (betas : List ℝ) (t : ℕ) (a : ℝ) (r : TimestepData)
    (hr : r ∈ scheduleAux t a betas) : -200 ≤ r.snrDb := by
  induction betas generalizing t a with
  | nil => simp [scheduleAux] at hr
  | cons b rest ih =>
    rcases List.mem_cons.mp hr with h | h
    · subst h
      exact mkRecord_snrDb_ge _ _ _
    · exact ih _ _ h

/-- C10: every record produced by the evaluator has
`snrDb ≥ 10 * log10(1e-20) = −200`; the `1e-20` clamp inside the `log10`
argument makes −200 a hard lower bound even when `snr` is zero or negative. -/
theorem snrDb_floor (betas : List ℝ) :
    10 * Real.logb 10 (1e-20 : ℝ) = -200 ∧
    ∀ r ∈ scheduleFromBetas betas, -200 ≤ r.snrDb := by
  refine ⟨by rw [logb_ten_small]; norm_num, ?_⟩
  intro r hr
  exact scheduleAux_snrDb_ge betas 1 1 r hr

/-- Witness for C10 at the beta sequence `[2]` (negative `alpha`,
`alphaBar` negative, `snr` negative: the clamp still gives −200 ≤ snrDb). -/
theorem snrDb_floor_witness :
    -200 ≤ ((scheduleFromBetas [(2 : ℝ)]).get
      ⟨0, by rw [scheduleFromBetas_length]; norm_num⟩).snrDb :=
  (snrDb_floor [(2 : ℝ)]).2 _ (List.get_mem _ _ _)

/-! ### Solver bracket invariant -/

theorem solveStep_invariant (target bs nts : ℝ) (s : ScheduleType) (p : ℝ × ℝ)
    (h1 : 0.0000001 ≤ p.1) (h12 : p.1 < p.2) (h2 : p.2 ≤ 0.999) :
    0.0000001 ≤ (solveStep target bs nts s p).1 ∧
    (solveStep target bs nts s p).1 < (solveStep target bs nts s p).2 ∧
    (solveStep target bs nts s p).2 ≤ 0.999 := by
  unfold solveStep
  by_cases hc : lastSnrDb ⟨bs, (p.1 + p.2) / 2, nts, s⟩ > target
  · rw [if_pos hc]
    refine ⟨by simp only; linarith, by simp only; linarith, by simp only; linarith⟩
  · rw [if_neg hc]
    refine ⟨by simp only; linarith, by simp only; linarith, by simp only; linarith⟩

theorem solve_iterate_invariant (target bs nts : ℝ) (s : ScheduleType) (k : ℕ) :
    0.0000001 ≤ ((solveStep target bs nts s)^[k] (0.0000001, 0.999)).1 ∧
    ((solveStep target bs nts s)^[k] (0.0000001, 0.999)).1 <
      ((solveStep target bs nts s)^[k] (0.0000001, 0.999)).2 ∧
    ((solveStep target bs nts s)^[k] (0.0000001, 0.999)).2 ≤ 0.999 := by
  induction k with
  | zero =>
    refine ⟨le_refl _, by norm_num, le_refl _⟩
  | succ k ih =>
    rw [Function.iterate_succ_apply']
    exact solveStep_invariant target bs nts s _ ih.1 ih.2.1 ih.2.2

/-- C3: the solver is exactly 40 bisection iterations (no early exit) from
`low = 1e-7`, `high = 0.999`; each iteration takes `mid = (low + high)/2`,
evaluates the schedule with `betaEnd = mid`, reads the last record's
`snrDb`, moves `low = mid` when it exceeds the target and `high = mid`
otherwise; the returned final `high` always lies in `(1e-7, 0.999]`. -/
theorem solveBetaEndForSNR_spec (target bs nts : ℝ) (s : ScheduleType) :
    solveBetaEndForSNR target bs nts s =
      ((solveStep target bs nts s)^[40] (0.0000001, 0.999)).2 ∧
    (∀ lh : ℝ × ℝ, solveStep target bs nts s lh =
      if lastSnrDb ⟨bs, (lh.1 + lh.2) / 2, nts, s⟩ > target
      then ((lh.1 + lh.2) / 2, lh.2) else (lh.1, (lh.1 + lh.2) / 2)) ∧
    1e-7 < solveBetaEndForSNR target bs nts s ∧
    solveBetaEndForSNR target bs nts s ≤ 0.999 := by
  have hinv := solve_iterate_invariant target bs nts s 40
  refine ⟨rfl, fun lh => rfl, ?_, ?_⟩
  · have : (0.0000001 : ℝ) = 1e-7 := by norm_num
    rw [solveBetaEndForSNR]
    linarith [hinv.1, hinv.2.1]
  · rw [solveBetaEndForSNR]
    exact hinv.2.2

/-! ### RECIP family -/

theorem linspace_recip_get (n : ℕ) (hn : 1 ≤ n) (i : ℕ)
    (h : i < (linspace (n : ℝ) 1 (n : ℝ)).length) :
    (linspace (n : ℝ) 1 (n : ℝ)).get ⟨i, h⟩ = (n : ℝ) - (i : ℝ) := by
  have hc : (max 1 ⌊((n : ℕ) : ℝ)⌋).toNat = n := count_natCast n hn
  by_cases h2 : 2 ≤ n
  · rw [linspace_get _ _ _ (by rw [hc]; exact h2) i h, hc]
    have hne : ((n : ℝ) - 1) ≠ 0 := by
      have : (2 : ℝ) ≤ (n : ℝ) := by exact_mod_cast h2
      linarith
    field_simp
    ring
  · have hn1 : n = 1 := by omega
    subst hn1
    have hi : i = 0 := by
      rw [linspace_length, hc] at h
      omega
    subst hi
    have heq := linspace_eq_single ((1 : ℕ) : ℝ) 1 ((1 : ℕ) : ℝ) (by rw [hc]; omega)
    rw [List.get_of_eq heq ⟨0, h⟩]
    norm_num

theorem getBetas_recip (bs be nts : ℝ) (n : ℕ)
    (hn : n = (max 1 ⌊nts⌋).toNat) :
    getBetas ⟨bs, be, nts, ScheduleType.RECIP⟩ =
      (linspace (n : ℝ) 1 (n : ℝ)).map (fun v => be * (1 / v)) := by
  subst hn
  rfl

theorem getBetas_recip_get (bs be nts : ℝ) (n : ℕ)
    (hn : n = (max 1 ⌊nts⌋).toNat) (i : ℕ)
    (h : i < (getBetas ⟨bs, be, nts, ScheduleType.RECIP⟩).length) :
    (getBetas ⟨bs, be, nts, ScheduleType.RECIP⟩).get ⟨i, h⟩ =
      be * (1 / ((n : ℝ) - (i : ℝ))) := by
  have h1 : 1 ≤ n := hn ▸ one_le_count nts
  have heq := getBetas_recip bs be nts n hn
  have h' : i < ((linspace (n : ℝ) 1 (n : ℝ)).map (fun v => be * (1 / v))).length := by
    rwa [heq] at h
  have hlin : i < (linspace (n : ℝ) 1 (n : ℝ)).length := by
    rwa [List.length_map] at h'
  calc (getBetas ⟨bs, be, nts, ScheduleType.RECIP⟩).get ⟨i, h⟩
      = ((linspace (n : ℝ) 1 (n : ℝ)).map (fun v => be * (1 / v))).get ⟨i, h'⟩ := by
        apply List.get_of_eq heq
    _ = be * (1 / ((linspace (n : ℝ) 1 (n : ℝ)).get ⟨i, hlin⟩)) := by
        simp [List.get_eq_getElem, List.getElem_map]
    _ = be * (1 / ((n : ℝ) - (i : ℝ))) := by rw [linspace_recip_get n h1 i hlin]

/-- C9: for RECIP with `n = max(1, floor(numTimesteps))` steps, the beta
sequence is `betaEnd * (1/v)` elementwise over `v = linspace(n, 1, n)`, a
descending sequence; for `betaEnd > 0` the betas ascend strictly from
`betaEnd/n` at the first step to `betaEnd` at the last. -/
theorem recip_spec (bs be nts : ℝ) (n : ℕ) (hn : n = (max 1 ⌊nts⌋).toNat) :
    getBetas ⟨bs, be, nts, ScheduleType.RECIP⟩ =
      (linspace (n : ℝ) 1 (n : ℝ)).map (fun v => be * (1 / v)) ∧
    (∀ i (h : i + 1 < (linspace (n : ℝ) 1 (n : ℝ)).length)
        (h' : i < (linspace (n : ℝ) 1 (n : ℝ)).length),
      (linspace (n : ℝ) 1 (n : ℝ)).get ⟨i + 1, h⟩ <
        (linspace (n : ℝ) 1 (n : ℝ)).get ⟨i, h'⟩) ∧
    (0 < be →
      (∀ i (h : i + 1 < (getBetas ⟨bs, be, nts, ScheduleType.RECIP⟩).length)
          (h' : i < (getBetas ⟨bs, be, nts, ScheduleType.RECIP⟩).length),
        (getBetas ⟨bs, be, nts, ScheduleType.RECIP⟩).get ⟨i, h'⟩ <
          (getBetas ⟨bs, be, nts, ScheduleType.RECIP⟩).get ⟨i + 1, h⟩) ∧
      (∀ h0 : 0 < (getBetas ⟨bs, be, nts, ScheduleType.RECIP⟩).length,
        (getBetas ⟨bs, be, nts, ScheduleType.RECIP⟩).get ⟨0, h0⟩ = be / n) ∧
      (∀ hl : n - 1 < (getBetas ⟨bs, be, nts, ScheduleType.RECIP⟩).length,
        (getBetas ⟨bs, be, nts, ScheduleType.RECIP⟩).get ⟨n - 1, hl⟩ = be)) := by
  have h1 : 1 ≤ n := hn ▸ one_le_count nts
  have hlen : (getBetas ⟨bs, be, nts, ScheduleType.RECIP⟩).length = n := by
    rw [getBetas_length]
    exact hn.symm
  refine ⟨getBetas_recip bs be nts n hn, ?_, ?_⟩
  · intro i h h'
    have hin : i + 1 < n := by rwa [linspace_length, count_natCast n h1] at h
    rw [linspace_recip_get n h1 (i + 1) h, linspace_recip_get n h1 i h']
    push_cast
    linarith
  · intro hbe
    refine ⟨?_, ?_, ?_⟩
    · intro i h h'
      have hin : i + 1 < n := by rwa [hlen] at h
      rw [getBetas_recip_get bs be nts n hn i h',
        getBetas_recip_get bs be nts n hn (i + 1) h]
      have hpos : (0 : ℝ) < (n : ℝ) - ((i + 1 : ℕ) : ℝ) := by
        have : ((i + 1 : ℕ) : ℝ) < (n : ℝ) := by exact_mod_cast hin
        linarith
      have hlt : (n : ℝ) - ((i + 1 : ℕ) : ℝ) < (n : ℝ) - (i : ℝ) := by
        push_cast
        linarith
      exact mul_lt_mul_of_pos_left (one_div_lt_one_div_of_lt hpos hlt) hbe
    · intro h0
      rw [getBetas_recip_get bs be nts n hn 0 h0]
      rw [Nat.cast_zero, sub_zero, mul_one_div]
    · intro hl
      rw [getBetas_recip_get bs be nts n hn (n - 1) hl]
      have hcast : ((n - 1 : ℕ) : ℝ) = (n : ℝ) - 1 := by
        push_cast [h1]
        ring
      rw [hcast]
      norm_num

/-- Witness for C9 at `betaEnd = 1/2`, `numTimesteps = 2`. -/
theorem recip_spec_witness :
    (getBetas ⟨0, (1 : ℝ)/2, 2, ScheduleType.RECIP⟩).get
      ⟨0, by rw [getBetas_length, show ⌊(2 : ℝ)⌋ = (2 : ℤ) by norm_num]; decide⟩ =
      (1 : ℝ)/2 / 2 ∧
    (getBetas ⟨0, (1 : ℝ)/2, 2, ScheduleType.RECIP⟩).get
      ⟨1, by rw [getBetas_length, show ⌊(2 : ℝ)⌋ = (2 : ℤ) by norm_num]; decide⟩ =
      (1 : ℝ)/2 := by
  have hn : (2 : ℕ) = (max 1 ⌊(2 : ℝ)⌋).toNat := by
    rw [show ⌊(2 : ℝ)⌋ = (2 : ℤ) by norm_num]
    rfl
  have h := (recip_spec 0 ((1 : ℝ)/2) 2 2 hn).2.2 (by norm_num)
  refine ⟨?_, ?_⟩
  · have := h.2.1 (by rw [getBetas_length, show ⌊(2 : ℝ)⌋ = (2 : ℤ) by norm_num]; decide)
    rw [this]
    norm_num
  · have := h.2.2 (by rw [getBetas_length, show ⌊(2 : ℝ)⌋ = (2 : ℤ) by norm_num]; decide)
    exact this

/-! ### Single-step schedules (`numTimesteps = 1`) -/

theorem count_one : (max 1 ⌊(1 : ℝ)⌋).toNat = 1 := by
  rw [show ⌊(1 : ℝ)⌋ = (1 : ℤ) by norm_num]
  rfl

theorem linspace_single_nat_one (start stop : ℝ) :
    linspace start stop ((1 : ℕ) : ℝ) = [start] := by
  apply linspace_eq_single
  rw [count_natCast 1 (le_refl 1)]
  omega

theorem getBetas_one_linear (bs be : ℝ) :
    getBetas ⟨bs, be, 1, ScheduleType.LINEAR⟩ = [bs] := by
  show linspace bs be (((max 1 ⌊(1 : ℝ)⌋).toNat : ℕ) : ℝ) = [bs]
  rw [count_one]
  exact linspace_single_nat_one bs be

theorem getBetas_one_quad (bs be : ℝ) :
    getBetas ⟨bs, be, 1, ScheduleType.QUAD⟩ = [Real.sqrt bs * Real.sqrt bs] := by
  show (linspace (Real.sqrt bs) (Real.sqrt be)
      (((max 1 ⌊(1 : ℝ)⌋).toNat : ℕ) : ℝ)).map (fun v => v * v) = _
  rw [count_one, linspace_single_nat_one]
  rfl

theorem getBetas_one_sqrt (bs be : ℝ) :
    getBetas ⟨bs, be, 1, ScheduleType.SQRT⟩ = [Real.sqrt (bs ^ 2)] := by
  show (linspace (bs ^ 2) (be ^ 2)
      (((max 1 ⌊(1 : ℝ)⌋).toNat : ℕ) : ℝ)).map (fun v => Real.sqrt v) = _
  rw [count_one, linspace_single_nat_one]
  rfl

theorem getBetas_one_const (bs be : ℝ) :
    getBetas ⟨bs, be, 1, ScheduleType.CONST⟩ = [be] := by
  show List.replicate ((max 1 ⌊(1 : ℝ)⌋).toNat) be = [be]
  rw [count_one]
  rfl

theorem getBetas_one_recip (bs be : ℝ) :
    getBetas ⟨bs, be, 1, ScheduleType.RECIP⟩ = [be] := by
  show (linspace (((max 1 ⌊(1 : ℝ)⌋).toNat : ℕ) : ℝ) 1
      (((max 1 ⌊(1 : ℝ)⌋).toNat : ℕ) : ℝ)).map (fun v => be * (1 / v)) = _
  rw [count_one, linspace_single_nat_one]
  norm_num

theorem getBetas_one_log (bs be : ℝ) :
    getBetas ⟨bs, be, 1, ScheduleType.LOG⟩ =
      [(2 : ℝ) ^ Real.logb 2 (max 1e-10 bs)] := by
  show (linspace (Real.logb 2 (max 1e-10 bs)) (Real.logb 2 (max 1e-10 be))
      (((max 1 ⌊(1 : ℝ)⌋).toNat : ℕ) : ℝ)).map (fun v => (2 : ℝ) ^ v) = _
  rw [count_one, linspace_single_nat_one]
  rfl

theorem getBetas_one_exp (bs be : ℝ) :
    getBetas ⟨bs, be, 1, ScheduleType.EXP⟩ = [Real.logb 2 ((2 : ℝ) ^ bs)] := by
  show (linspace ((2 : ℝ) ^ bs) ((2 : ℝ) ^ be)
      (((max 1 ⌊(1 : ℝ)⌋).toNat : ℕ) : ℝ)).map (fun v => Real.logb 2 v) = _
  rw [count_one, linspace_single_nat_one]
  rfl

theorem single_record_facts (v : ℝ) :
    (scheduleFromBetas [v]).length = 1 ∧
    ((scheduleFromBetas [v]).headD defaultRecord).beta = v ∧
    ((scheduleFromBetas [v]).headD defaultRecord).alphaBar = 1 - v := by
  refine ⟨rfl, rfl, ?_⟩
  show 1 * (1 - v) = 1 - v
  ring

/-- C7 (amended): `numTimesteps = 1` yields a single-record schedule with
`alphaBar = 1 − beta` exactly, whose `beta` equals `betaStart` for the
LINEAR and EXP families unconditionally, for QUAD and SQRT whenever
`betaStart ≥ 0`, and for LOG whenever `betaStart ≥ 1e-10`; it equals
`betaEnd` for CONST and RECIP. (The unamended claim fails for LOG with
`0 < betaStart < 1e-10`, where the `1e-10` floor replaces `betaStart`.) -/
theorem single_step_spec (bs be : ℝ) (s : ScheduleType) :
    (calculateSchedule ⟨bs, be, 1, s⟩).length = 1 ∧
    ((calculateSchedule ⟨bs, be, 1, s⟩).headD defaultRecord).alphaBar =
      1 - ((calculateSchedule ⟨bs, be, 1, s⟩).headD defaultRecord).beta ∧
    (s = .LINEAR → ((calculateSchedule ⟨bs, be, 1, s⟩).headD defaultRecord).beta = bs) ∧
    (s = .EXP → ((calculateSchedule ⟨bs, be, 1, s⟩).headD defaultRecord).beta = bs) ∧
    (s = .QUAD → 0 ≤ bs →
      ((calculateSchedule ⟨bs, be, 1, s⟩).headD defaultRecord).beta = bs) ∧
    (s = .SQRT → 0 ≤ bs →
      ((calculateSchedule ⟨bs, be, 1, s⟩).headD defaultRecord).beta = bs) ∧
    (s = .LOG → 1e-10 ≤ bs →
      ((calculateSchedule ⟨bs, be, 1, s⟩).headD defaultRecord).beta = bs) ∧
    (s = .CONST → ((calculateSchedule ⟨bs, be, 1, s⟩).headD defaultRecord).beta = be) ∧
    (s = .RECIP → ((calculateSchedule ⟨bs, be, 1, s⟩).headD defaultRecord).beta = be) := by
  cases s
  case LINEAR =>
    have hb := getBetas_one_linear bs be
    have hf := single_record_facts bs
    rw [calculateSchedule, hb]
    refine ⟨hf.1, by rw [hf.2.1, hf.2.2], fun _ => hf.2.1, ?_, ?_, ?_, ?_, ?_, ?_⟩ <;>
      exact fun h => ScheduleType.noConfusion h
  case EXP =>
    have hb := getBetas_one_exp bs be
    have hv : Real.logb 2 ((2 : ℝ) ^ bs) = bs :=
      Real.logb_rpow (by norm_num) (by norm_num)
    have hf := single_record_facts (Real.logb 2 ((2 : ℝ) ^ bs))
    rw [calculateSchedule, hb]
    refine ⟨hf.1, by rw [hf.2.1, hf.2.2], fun h => ScheduleType.noConfusion h,
      fun _ => by rw [hf.2.1, hv], ?_, ?_, ?_, ?_, ?_⟩ <;>
      exact fun h => ScheduleType.noConfusion h
  case QUAD =>
    have hb := getBetas_one_quad bs be
    have hf := single_record_facts (Real.sqrt bs * Real.sqrt bs)
    rw [calculateSchedule, hb]
    refine ⟨hf.1, by rw [hf.2.1, hf.2.2], fun h => ScheduleType.noConfusion h,
      fun h => ScheduleType.noConfusion h,
      fun _ hbs => by rw [hf.2.1, Real.mul_self_sqrt hbs], ?_, ?_, ?_, ?_⟩ <;>
      exact fun h => ScheduleType.noConfusion h
  case SQRT =>
    have hb := getBetas_one_sqrt bs be
    have hf := single_record_facts (Real.sqrt (bs ^ 2))
    rw [calculateSchedule, hb]
    refine ⟨hf.1, by rw [hf.2.1, hf.2.2], fun h => ScheduleType.noConfusion h,
      fun h => ScheduleType.noConfusion h, fun h => ScheduleType.noConfusion h,
      fun _ hbs => by rw [hf.2.1, Real.sqrt_sq hbs], ?_, ?_, ?_⟩ <;>
      exact fun h => ScheduleType.noConfusion h
  case LOG =>
    have hb := getBetas_one_log bs be
    have hf := single_record_facts ((2 : ℝ) ^ Real.logb 2 (max 1e-10 bs))
    rw [calculateSchedule, hb]
    refine ⟨hf.1, by rw [hf.2.1, hf.2.2], fun h => ScheduleType.noConfusion h,
      fun h => ScheduleType.noConfusion h, fun h => ScheduleType.noConfusion h,
      fun h => ScheduleType.noConfusion h, ?_, fun h => ScheduleType.noConfusion h,
      fun h => ScheduleType.noConfusion h⟩
    intro _ hbs
    rw [hf.2.1, max_eq_right hbs]
    exact Real.rpow_logb (by norm_num) (by norm_num) (by linarith [hbs] )
  case CONST =>
    have hb := getBetas_one_const bs be
    have hf := single_record_facts be
    rw [calculateSchedule, hb]
    refine ⟨hf.1, by rw [hf.2.1, hf.2.2], fun h => ScheduleType.noConfusion h,
      fun h => ScheduleType.noConfusion h, fun h => ScheduleType.noConfusion h,
      fun h => ScheduleType.noConfusion h, fun h => ScheduleType.noConfusion h,
      fun _ => hf.2.1, fun h => ScheduleType.noConfusion h⟩
  case RECIP =>
    have hb := getBetas_one_recip bs be
    have hf := single_record_facts be
    rw [calculateSchedule, hb]
    refine ⟨hf.1, by rw [hf.2.1, hf.2.2], fun h => ScheduleType.noConfusion h,
      fun h => ScheduleType.noConfusion h, fun h => ScheduleType.noConfusion h,
      fun h => ScheduleType.noConfusion h, fun h => ScheduleType.noConfusion h,
      fun h => ScheduleType.noConfusion h, fun _ => hf.2.1⟩

/-- Witness for the amended C7 at `betaStart = 1/2`, `betaEnd = 1/4`,
LOG family (its `1e-10 ≤ betaStart` side condition discharged). -/
theorem single_step_spec_witness :
    ((calculateSchedule ⟨(1 : ℝ)/2, 1/4, 1, ScheduleType.LOG⟩).headD
      defaultRecord).beta = (1 : ℝ)/2 :=
  (single_step_spec ((1 : ℝ)/2) (1/4) ScheduleType.LOG).2.2.2.2.2.2.1 rfl (by norm_num)

/-- Counterexample to C7 as stated: for the LOG family with
`betaStart = 1e-11` (inside the documented `(0,1)` domain) and
`numTimesteps = 1`, the single record's `beta` is `1e-10`, not `betaStart`:
the `1e-10` log floor replaces the start value. -/
theorem single_step_counterexample :
    (0 : ℝ) < 1e-11 ∧ (1e-11 : ℝ) < 1 ∧
    ((calculateSchedule ⟨1e-11, 0.02, 1, ScheduleType.LOG⟩).headD
      defaultRecord).beta ≠ 1e-11 := by
  refine ⟨by norm_num, by norm_num, ?_⟩
  have hb := getBetas_one_log 1e-11 0.02
  rw [calculateSchedule, hb]
  have hf := single_record_facts ((2 : ℝ) ^ Real.logb 2 (max 1e-10 1e-11))
  rw [hf.2.1, max_eq_left (by norm_num),
    Real.rpow_logb (by norm_num) (by norm_num) (by norm_num)]
  norm_num

/-! ### Projection lemmas for `mkRecord` -/

theorem mkRecord_beta (t : ℕ) (b a : ℝ) : (mkRecord t b a).beta = b := rfl

theorem mkRecord_alphaBar (t : ℕ) (b a : ℝ) : (mkRecord t b a).alphaBar = a := rfl

theorem mkRecord_snr (t : ℕ) (b a : ℝ) :
    (mkRecord t b a).snr = a / (if 1 - a = 0 then 1e-12 else 1 - a) := rfl

theorem mkRecord_snrDb (t : ℕ) (b a : ℝ) :
    (mkRecord t b a).snrDb = 10 * Real.logb 10 (max 1e-20 ((mkRecord t b a).snr)) := rfl

/-! ### Products of per-step alphas -/

theorem prod_pos_le_one (l : List ℝ) (hl : ∀ x ∈ l, 0 < x ∧ x < 1) :
    0 < l.prod ∧ l.prod ≤ 1 := by
  induction l with
  | nil => norm_num
  | cons a l ih =>
    have ha := hl a (List.mem_cons_self a l)
    have ih' := ih (fun x hx => hl x (List.mem_cons_of_mem a hx))
    rw [List.prod_cons]
    refine ⟨mul_pos ha.1 ih'.1, ?_⟩
    calc a * l.prod ≤ 1 * 1 :=
        mul_le_mul (le_of_lt ha.2) ih'.2 (le_of_lt ih'.1) zero_le_one
    _ = 1 := by norm_num

theorem prod_lt_one (l : List ℝ) (hl : ∀ x ∈ l, 0 < x ∧ x < 1) (hne : l ≠ []) :
    l.prod < 1 := by
  cases l with
  | nil => exact absurd rfl hne
  | cons a t =>
    have ha := hl a (List.mem_cons_self a t)
    have ht := prod_pos_le_one t (fun x hx => hl x (List.mem_cons_of_mem a hx))
    rw [List.prod_cons]
    calc a * t.prod ≤ a * 1 := mul_le_mul_of_nonneg_left ht.2 (le_of_lt ha.1)
    _ = a := by ring
    _ < 1 := ha.2

/-- Every element of `linspace s e n` lies in `[s, e]` when `s ≤ e`. -/
theorem linspace_mem_Icc (s e n : ℝ) (hse : s ≤ e) (x : ℝ)
    (hx : x ∈ linspace s e n) : s ≤ x ∧ x ≤ e := by
  by_cases h2 : 2 ≤ (max 1 ⌊n⌋).toNat
  · rw [linspace_eq_map s e n h2] at hx
    obtain ⟨i, hi, rfl⟩ := List.mem_map.mp hx
    rw [List.mem_range] at hi
    have hc1 : (1 : ℝ) ≤ ((max 1 ⌊n⌋).toNat : ℝ) - 1 := by
      have : (2 : ℝ) ≤ ((max 1 ⌊n⌋).toNat : ℝ) := by exact_mod_cast h2
      linarith
    have hstep : 0 ≤ (e - s) / (((max 1 ⌊n⌋).toNat : ℝ) - 1) :=
      div_nonneg (by linarith) (by linarith)
    constructor
    · have : 0 ≤ (e - s) / (((max 1 ⌊n⌋).toNat : ℝ) - 1) * (i : ℝ) :=
        mul_nonneg hstep (Nat.cast_nonneg i)
      linarith
    · have hi' : (i : ℝ) ≤ ((max 1 ⌊n⌋).toNat : ℝ) - 1 := by
        have : (i : ℝ) + 1 ≤ ((max 1 ⌊n⌋).toNat : ℝ) := by exact_mod_cast hi
        linarith
      have hmul : (e - s) / (((max 1 ⌊n⌋).toNat : ℝ) - 1) * (i : ℝ) ≤
          (e - s) / (((max 1 ⌊n⌋).toNat : ℝ) - 1) * (((max 1 ⌊n⌋).toNat : ℝ) - 1) :=
        mul_le_mul_of_nonneg_left hi' hstep
      have hcancel : (e - s) / (((max 1 ⌊n⌋).toNat : ℝ) - 1) *
          (((max 1 ⌊n⌋).toNat : ℝ) - 1) = e - s :=
        div_mul_cancel₀ _ (by linarith)
      linarith [hmul.trans_eq hcancel]
  · rw [linspace_eq_single s e n (by omega)] at hx
    have : x = s := by simpa using hx
    subst this
    exact ⟨le_refl _, hse⟩

theorem getBetas_linear (bs be nts : ℝ) :
    getBetas ⟨bs, be, nts, ScheduleType.LINEAR⟩ =
      linspace bs be (((max 1 ⌊nts⌋).toNat : ℕ) : ℝ) := rfl

/-- The cumulative alpha product after step `i`, for betas all in `(0,1)`:
positive and strictly below 1. -/
theorem abar_pos_lt_one (betas : List ℝ) (hb : ∀ b ∈ betas, 0 < b ∧ b < 1)
    (i : ℕ) (hi : i < betas.length) :
    0 < ((betas.take (i + 1)).map (fun b => 1 - b)).prod ∧
    ((betas.take (i + 1)).map (fun b => 1 - b)).prod < 1 := by
  have hfac : ∀ x ∈ (betas.take (i + 1)).map (fun b => 1 - b), 0 < x ∧ x < 1 := by
    intro x hx
    obtain ⟨b, hbmem, rfl⟩ := List.mem_map.mp hx
    have := hb b (List.take_subset _ _ hbmem)
    exact ⟨by linarith [this.2], by linarith [this.1]⟩
  have hne : (betas.take (i + 1)).map (fun b => 1 - b) ≠ [] := by
    have : (betas.take (i + 1)).length = min (i + 1) betas.length := List.length_take _ _
    intro hcon
    rw [← List.length_eq_zero, List.length_map, this] at hcon
    omega
  exact ⟨(prod_pos_le_one _ hfac).1, prod_lt_one _ hfac hne⟩

theorem abar_succ (betas : List ℝ) (i : ℕ) (h : i + 1 < betas.length) :
    ((betas.take (i + 1 + 1)).map (fun b => 1 - b)).prod =
      ((betas.take (i + 1)).map (fun b => 1 - b)).prod *
        (1 - betas.get ⟨i + 1, h⟩) := by
  rw [List.map_take, List.map_take,
    List.prod_take_succ (betas.map (fun b => 1 - b)) (i + 1) (by simpa using h)]
  congr 1
  rw [List.get_eq_getElem, List.getElem_map]

theorem linear_monotone_aux (bs be nts : ℝ) (h0 : 0 < bs) (h1 : bs < be) (h2 : be < 1)
    (i : ℕ)
    (h : i + 1 < (scheduleFromBetas (getBetas ⟨bs, be, nts, ScheduleType.LINEAR⟩)).length)
    (h' : i < (scheduleFromBetas (getBetas ⟨bs, be, nts, ScheduleType.LINEAR⟩)).length) :
    ((scheduleFromBetas (getBetas ⟨bs, be, nts, ScheduleType.LINEAR⟩)).get
        ⟨i + 1, h⟩).alphaBar <
      ((scheduleFromBetas (getBetas ⟨bs, be, nts, ScheduleType.LINEAR⟩)).get
        ⟨i, h'⟩).alphaBar ∧
    ((scheduleFromBetas (getBetas ⟨bs, be, nts, ScheduleType.LINEAR⟩)).get
        ⟨i + 1, h⟩).snrDb ≤
      ((scheduleFromBetas (getBetas ⟨bs, be, nts, ScheduleType.LINEAR⟩)).get
        ⟨i, h'⟩).snrDb := by
  have hmem : ∀ b ∈ getBetas ⟨bs, be, nts, ScheduleType.LINEAR⟩, 0 < b ∧ b < 1 := by
    intro b hbmem
    rw [getBetas_linear] at hbmem
    have := linspace_mem_Icc bs be _ (le_of_lt h1) b hbmem
    exact ⟨lt_of_lt_of_le h0 this.1, lt_of_le_of_lt this.2 h2⟩
  have h2' : i + 1 < (getBetas ⟨bs, be, nts, ScheduleType.LINEAR⟩).length := by
    rwa [scheduleFromBetas_length] at h
  have h2'' : i < (getBetas ⟨bs, be, nts, ScheduleType.LINEAR⟩).length := by
    rwa [scheduleFromBetas_length] at h'
  rw [scheduleFromBetas_get _ (i + 1) h h2', scheduleFromBetas_get _ i h' h2'',
    mkRecord_snrDb, mkRecord_snrDb, mkRecord_snr, mkRecord_snr,
    mkRecord_alphaBar, mkRecord_alphaBar]
  have hA0 := abar_pos_lt_one _ hmem i h2''
  have hA1 := abar_pos_lt_one _ hmem (i + 1) h2'
  have hb1 := hmem _ (List.get_mem (getBetas ⟨bs, be, nts, ScheduleType.LINEAR⟩) (i + 1) h2')
  have hlt : (((getBetas ⟨bs, be, nts, ScheduleType.LINEAR⟩).take (i + 1 + 1)).map
      (fun b => 1 - b)).prod <
      (((getBetas ⟨bs, be, nts, ScheduleType.LINEAR⟩).take (i + 1)).map
      (fun b => 1 - b)).prod := by
    rw [abar_succ _ i h2']
    exact mul_lt_of_lt_one_right hA0.1 (by linarith [hb1.1])
  refine ⟨hlt, ?_⟩
  rw [if_neg (ne_of_gt (by linarith [hA1.2] : (0 : ℝ) <
      1 - (((getBetas ⟨bs, be, nts, ScheduleType.LINEAR⟩).take (i + 1 + 1)).map
        (fun b => 1 - b)).prod)),
    if_neg (ne_of_gt (by linarith [hA0.2] : (0 : ℝ) <
      1 - (((getBetas ⟨bs, be, nts, ScheduleType.LINEAR⟩).take (i + 1)).map
        (fun b => 1 - b)).prod))]
  have hsnr : (((getBetas ⟨bs, be, nts, ScheduleType.LINEAR⟩).take (i + 1 + 1)).map
        (fun b => 1 - b)).prod /
      (1 - (((getBetas ⟨bs, be, nts, ScheduleType.LINEAR⟩).take (i + 1 + 1)).map
        (fun b => 1 - b)).prod) <
      (((getBetas ⟨bs, be, nts, ScheduleType.LINEAR⟩).take (i + 1)).map
        (fun b => 1 - b)).prod /
      (1 - (((getBetas ⟨bs, be, nts, ScheduleType.LINEAR⟩).take (i + 1)).map
        (fun b => 1 - b)).prod) := by
    rw [div_lt_div_iff₀ (by linarith [hA1.2]) (by linarith [hA0.2])]
    nlinarith [hlt, hA0.1, hA1.1]
  have hmax := max_le_max (le_refl (1e-20 : ℝ)) (le_of_lt hsnr)
  have hpos : (0 : ℝ) < max 1e-20
      ((((getBetas ⟨bs, be, nts, ScheduleType.LINEAR⟩).take (i + 1 + 1)).map
        (fun b => 1 - b)).prod /
      (1 - (((getBetas ⟨bs, be, nts, ScheduleType.LINEAR⟩).take (i + 1 + 1)).map
        (fun b => 1 - b)).prod)) :=
    lt_of_lt_of_le (by norm_num) (le_max_left _ _)
  have hlog := Real.logb_le_logb_of_le (by norm_num : (1 : ℝ) < 10) hpos hmax
  linarith

/-- C6 (amended): for LINEAR with `0 < betaStart < betaEnd < 1`, the
`alphaBar` values are strictly decreasing in `t`, and the `snrDb` values
are non-increasing in `t`. (Strict decrease of `snrDb` fails once `snr`
falls to the `1e-20` clamp, where `snrDb` is constant at −200.) -/
theorem linear_schedule_monotone (bs be nts : ℝ)
    (h0 : 0 < bs) (h1 : bs < be) (h2 : be < 1) (i : ℕ)
    (h : i + 1 < (calculateSchedule ⟨bs, be, nts, ScheduleType.LINEAR⟩).length)
    (h' : i < (calculateSchedule ⟨bs, be, nts, ScheduleType.LINEAR⟩).length) :
    ((calculateSchedule ⟨bs, be, nts, ScheduleType.LINEAR⟩).get
        ⟨i + 1, h⟩).alphaBar <
      ((calculateSchedule ⟨bs, be, nts, ScheduleType.LINEAR⟩).get ⟨i, h'⟩).alphaBar ∧
    ((calculateSchedule ⟨bs, be, nts, ScheduleType.LINEAR⟩).get ⟨i + 1, h⟩).snrDb ≤
      ((calculateSchedule ⟨bs, be, nts, ScheduleType.LINEAR⟩).get ⟨i, h'⟩).snrDb :=
  linear_monotone_aux bs be nts h0 h1 h2 i h h'

/-- Witness for the amended C6 at `betaStart = 1/4`, `betaEnd = 1/2`,
`numTimesteps = 2`, steps 1 and 2. -/
theorem linear_schedule_monotone_witness :
    ((calculateSchedule ⟨(1 : ℝ)/4, 1/2, 2, ScheduleType.LINEAR⟩).get
        ⟨1, by
          rw [(generateSchedule_spec ⟨(1 : ℝ)/4, 1/2, 2, ScheduleType.LINEAR⟩).1,
            show ⌊(2 : ℝ)⌋ = (2 : ℤ) by norm_num]
          decide⟩).alphaBar <
      ((calculateSchedule ⟨(1 : ℝ)/4, 1/2, 2, ScheduleType.LINEAR⟩).get
        ⟨0, by
          rw [(generateSchedule_spec ⟨(1 : ℝ)/4, 1/2, 2, ScheduleType.LINEAR⟩).1,
            show ⌊(2 : ℝ)⌋ = (2 : ℤ) by norm_num]
          decide⟩).alphaBar :=
  (linear_schedule_monotone ((1 : ℝ)/4) (1/2) 2 (by norm_num) (by norm_num)
    (by norm_num) 0 _ _).1

/-- Counterexample to C6 as stated: for LINEAR with
`betaStart = 1 − 1e-12 < betaEnd = 1 − 1e-13` (both in `(0,1)`) and 3
steps, `alphaBar` collapses so far that `snr` falls below the `1e-20`
clamp at steps 2 and 3, making their `snrDb` values equal (−200), so
`snrDb` is not strictly decreasing in `t`. -/
theorem linear_schedule_monotone_counterexample :
    (0 : ℝ) < 1 - 1/10^12 ∧ (1 - 1/10^12 : ℝ) < 1 - 1/10^13 ∧
    (1 - 1/10^13 : ℝ) < 1 ∧
    ((calculateSchedule ⟨1 - 1/10^12, 1 - 1/10^13, 3, ScheduleType.LINEAR⟩).get
        ⟨2, by
          rw [(generateSchedule_spec
            ⟨1 - 1/10^12, 1 - 1/10^13, 3, ScheduleType.LINEAR⟩).1,
            show ⌊(3 : ℝ)⌋ = (3 : ℤ) by norm_num]
          decide⟩).snrDb =
      ((calculateSchedule ⟨1 - 1/10^12, 1 - 1/10^13, 3, ScheduleType.LINEAR⟩).get
        ⟨1, by
          rw [(generateSchedule_spec
            ⟨1 - 1/10^12, 1 - 1/10^13, 3, ScheduleType.LINEAR⟩).1,
            show ⌊(3 : ℝ)⌋ = (3 : ℤ) by norm_num]
          decide⟩).snrDb := by
  refine ⟨by norm_num, by norm_num, by norm_num, ?_⟩
  have hcount : (max 1 ⌊(3 : ℝ)⌋).toNat = 3 := by
    rw [show ⌊(3 : ℝ)⌋ = (3 : ℤ) by norm_num]
    rfl
  have hb : getBetas ⟨1 - 1/10^12, 1 - 1/10^13, 3, ScheduleType.LINEAR⟩ =
      [1 - 1/10^12, 1 - 55/10^14, 1 - 1/10^13] := by
    rw [getBetas_linear, hcount,
      linspace_eq_map _ _ _ (by rw [count_natCast 3 (by norm_num)]; omega),
      count_natCast 3 (by norm_num)]
    have hr : (List.range 3).map
        (fun (i : ℕ) => (1 - 1/10^12 : ℝ) +
          ((1 - 1/10^13) - (1 - 1/10^12)) / (((3 : ℕ) : ℝ) - 1) * (i : ℝ)) =
        [(1 - 1/10^12 : ℝ) +
          ((1 - 1/10^13) - (1 - 1/10^12)) / (((3 : ℕ) : ℝ) - 1) * ((0 : ℕ) : ℝ),
         (1 - 1/10^12 : ℝ) +
          ((1 - 1/10^13) - (1 - 1/10^12)) / (((3 : ℕ) : ℝ) - 1) * ((1 : ℕ) : ℝ),
         (1 - 1/10^12 : ℝ) +
          ((1 - 1/10^13) - (1 - 1/10^12)) / (((3 : ℕ) : ℝ) - 1) * ((2 : ℕ) : ℝ)] := rfl
    rw [hr]
    norm_num
  have hceq : calculateSchedule ⟨1 - 1/10^12, 1 - 1/10^13, 3, ScheduleType.LINEAR⟩ =
      [mkRecord 1 (1 - 1/10^12) (1 * (1 - (1 - 1/10^12))),
       mkRecord 2 (1 - 55/10^14) (1 * (1 - (1 - 1/10^12)) * (1 - (1 - 55/10^14))),
       mkRecord 3 (1 - 1/10^13)
         (1 * (1 - (1 - 1/10^12)) * (1 - (1 - 55/10^14)) * (1 - (1 - 1/10^13)))] := by
    rw [calculateSchedule, hb]
    rfl
  rw [List.get_of_eq hceq, List.get_of_eq hceq]
  show (mkRecord 3 (1 - 1/10^13)
      (1 * (1 - (1 - 1/10^12)) * (1 - (1 - 55/10^14)) * (1 - (1 - 1/10^13)))).snrDb =
    (mkRecord 2 (1 - 55/10^14)
      (1 * (1 - (1 - 1/10^12)) * (1 - (1 - 55/10^14)))).snrDb
  rw [mkRecord_snrDb, mkRecord_snrDb, mkRecord_snr, mkRecord_snr]
  have e3 : max (1e-20 : ℝ)
      ((1 * (1 - (1 - 1/10^12)) * (1 - (1 - 55/10^14)) * (1 - (1 - 1/10^13))) /
        (if 1 - (1 * (1 - (1 - 1/10^12)) * (1 - (1 - 55/10^14)) * (1 - (1 - 1/10^13))) = (0 : ℝ)
         then 1e-12
         else 1 - (1 * (1 - (1 - 1/10^12)) * (1 - (1 - 55/10^14)) *
           (1 - (1 - 1/10^13))))) = 1e-20 := by
    rw [if_neg (by norm_num)]
    apply max_eq_left
    rw [div_le_iff₀ (by norm_num)]
    norm_num
  have e2 : max (1e-20 : ℝ)
      ((1 * (1 - (1 - 1/10^12)) * (1 - (1 - 55/10^14))) /
        (if 1 - (1 * (1 - (1 - 1/10^12)) * (1 - (1 - 55/10^14))) = (0 : ℝ) then 1e-12
         else 1 - (1 * (1 - (1 - 1/10^12)) * (1 - (1 - 55/10^14))))) = 1e-20 := by
    rw [if_neg (by norm_num)]
    apply max_eq_left
    rw [div_le_iff₀ (by norm_num)]
    norm_num
  rw [e3, e2]

/-! ### The terminal record of a schedule -/

/-- Product of all per-step alphas of a beta sequence. -/
noncomputable def alphaProd (betas : List ℝ) : ℝ :=
  (betas.map (fun b => 1 - b)).prod

theorem mkRecord_congr (t1 t2 : ℕ) (b1 b2 a1 a2 : ℝ)
    (ht : t1 = t2) (hb : b1 = b2) (ha : a1 = a2) :
    mkRecord t1 b1 a1 = mkRecord t2 b2 a2 := by
  subst ht
  subst hb
  subst ha
  rfl

theorem scheduleAux_getLastD (betas : List ℝ) (hne : betas ≠ []) (t : ℕ) (a : ℝ)
    (d : TimestepData) :
    (scheduleAux t a betas).getLastD d =
      mkRecord (t + (betas.length - 1)) (betas.getLast hne) (a * alphaProd betas) := by
  induction betas generalizing t a d with
  | nil => exact absurd rfl hne
  | cons b rest ih =>
    cases rest with
    | nil =>
      show mkRecord t b (a * (1 - b)) = _
      refine mkRecord_congr _ _ _ _ _ _ ?_ rfl ?_
      · rfl
      · show a * (1 - b) = a * alphaProd [b]
        rw [alphaProd]
        simp
    | cons c rest' =>
      show (scheduleAux (t + 1) (a * (1 - b)) (c :: rest')).getLastD
          (mkRecord t b (a * (1 - b))) = _
      rw [ih (by simp) (t + 1) (a * (1 - b)) (mkRecord t b (a * (1 - b)))]
      refine mkRecord_congr _ _ _ _ _ _ ?_ ?_ ?_
      · simp only [List.length_cons]
        omega
      · exact (List.getLast_cons (by simp)).symm
      · show a * (1 - b) * alphaProd (c :: rest') = a * alphaProd (b :: c :: rest')
        simp only [alphaProd, List.map_cons, List.prod_cons]
        ring

theorem calculateSchedule_getLastD (p : DiffusionParams) (hne : getBetas p ≠ []) :
    (calculateSchedule p).getLastD defaultRecord =
      mkRecord (1 + ((getBetas p).length - 1)) ((getBetas p).getLast hne)
        (1 * alphaProd (getBetas p)) :=
  scheduleAux_getLastD (getBetas p) hne 1 1 defaultRecord

theorem alphaProd_eq_take (betas : List ℝ) (m : ℕ) (hm : betas.length = m + 1) :
    alphaProd betas = ((betas.take (m + 1)).map (fun b => 1 - b)).prod := by
  rw [alphaProd, ← hm, List.take_length]

/-- `lastSnrDb` in terms of the alpha product, when the product is
strictly below 1 (so the `1e-12` zero-denominator substitution is not
taken). -/
theorem lastSnrDb_formula (p : DiffusionParams) (hne : getBetas p ≠ [])
    (hA : alphaProd (getBetas p) < 1) :
    lastSnrDb p = 10 * Real.logb 10
      (max 1e-20 (alphaProd (getBetas p) / (1 - alphaProd (getBetas p)))) := by
  rw [lastSnrDb, calculateSchedule_getLastD p hne, mkRecord_snrDb, mkRecord_snr,
    one_mul, if_neg (ne_of_gt (by linarith : (0 : ℝ) < 1 - alphaProd (getBetas p)))]

/-- The terminal `snr` field in terms of the alpha product. -/
theorem lastSnr_formula (p : DiffusionParams) (hne : getBetas p ≠ [])
    (hA : alphaProd (getBetas p) < 1) :
    ((calculateSchedule p).getLastD defaultRecord).snr =
      alphaProd (getBetas p) / (1 - alphaProd (getBetas p)) := by
  rw [calculateSchedule_getLastD p hne, mkRecord_snr, one_mul,
    if_neg (ne_of_gt (by linarith : (0 : ℝ) < 1 - alphaProd (getBetas p)))]

/-! ### The LINEAR terminal alpha product as a function of `betaEnd` -/

theorem list_range_map_prod (h : ℕ → ℝ) (n : ℕ) :
    ((List.range n).map h).prod = ∏ i in Finset.range n, h i := by
  induction n with
  | zero => rfl
  | succ n ih =>
    rw [List.range_succ, List.map_append, List.prod_append, Finset.prod_range_succ, ih]
    simp

theorem linspace_val_bounds (s e : ℝ) (c : ℕ) (hc : 2 ≤ c) (i : ℕ) (hi : i ≤ c - 1) :
    min s e ≤ s + (e - s) / ((c : ℝ) - 1) * (i : ℝ) ∧
    s + (e - s) / ((c : ℝ) - 1) * (i : ℝ) ≤ max s e := by
  have hc1 : (1 : ℝ) ≤ (c : ℝ) - 1 := by
    have : (2 : ℝ) ≤ (c : ℝ) := by exact_mod_cast hc
    linarith
  have hτ0 : 0 ≤ (i : ℝ) / ((c : ℝ) - 1) :=
    div_nonneg (Nat.cast_nonneg i) (by linarith)
  have hτ1 : (i : ℝ) / ((c : ℝ) - 1) ≤ 1 := by
    rw [div_le_one (by linarith)]
    have : (i : ℝ) ≤ ((c - 1 : ℕ) : ℝ) := by exact_mod_cast hi
    have hcast : ((c - 1 : ℕ) : ℝ) = (c : ℝ) - 1 := by
      push_cast [Nat.one_le_iff_ne_zero.mpr (by omega : c ≠ 0)]
      ring
    linarith [hcast ▸ this]
  have hrw : s + (e - s) / ((c : ℝ) - 1) * (i : ℝ) =
      s + (e - s) * ((i : ℝ) / ((c : ℝ) - 1)) := by ring
  rw [hrw]
  rcases le_total s e with h | h
  · have h1 : 0 ≤ (e - s) * ((i : ℝ) / ((c : ℝ) - 1)) :=
      mul_nonneg (by linarith) hτ0
    have h2 : (e - s) * ((i : ℝ) / ((c : ℝ) - 1)) ≤ e - s :=
      mul_le_of_le_one_right (by linarith) hτ1
    exact ⟨le_trans (min_le_left s e) (by linarith),
      le_trans (by linarith) (le_max_right s e)⟩
  · have h1 : (e - s) * ((i : ℝ) / ((c : ℝ) - 1)) ≤ 0 :=
      mul_nonpos_of_nonpos_of_nonneg (by linarith) hτ0
    have h2 : e - s ≤ (e - s) * ((i : ℝ) / ((c : ℝ) - 1)) := by
      nlinarith [hτ0, hτ1]
    exact ⟨le_trans (min_le_right s e) (by linarith),
      le_trans (by linarith) (le_max_left s e)⟩

theorem linspace_mem_minmax (s e n x : ℝ) (hx : x ∈ linspace s e n) :
    min s e ≤ x ∧ x ≤ max s e := by
  by_cases h2 : 2 ≤ (max 1 ⌊n⌋).toNat
  · rw [linspace_eq_map s e n h2] at hx
    obtain ⟨i, hi, rfl⟩ := List.mem_map.mp hx
    rw [List.mem_range] at hi
    exact linspace_val_bounds s e _ h2 i (by omega)
  · rw [linspace_eq_single s e n (by omega)] at hx
    have hxs : x = s := by simpa using hx
    rw [hxs]
    exact ⟨min_le_left s e, le_max_left s e⟩

/-- For LINEAR parameters with both bounds in `(0,1)`, every beta is in
`(0,1)`. -/
theorem linear_betas_mem (bs be nts : ℝ) (h0 : 0 < bs) (h1 : bs < 1)
    (h2 : 0 < be) (h3 : be < 1) :
    ∀ b ∈ getBetas ⟨bs, be, nts, ScheduleType.LINEAR⟩, 0 < b ∧ b < 1 := by
  intro b hb
  rw [getBetas_linear] at hb
  have := linspace_mem_minmax bs be _ b hb
  constructor
  · exact lt_of_lt_of_le (lt_min h0 h2) this.1
  · exact lt_of_le_of_lt this.2 (max_lt h1 h3)

theorem linear_alphaProd_form (bs be nts : ℝ) (hn : 2 ≤ (max 1 ⌊nts⌋).toNat) :
    alphaProd (getBetas ⟨bs, be, nts, ScheduleType.LINEAR⟩) =
      ∏ i in Finset.range ((max 1 ⌊nts⌋).toNat),
        (1 - (bs + (be - bs) / (((max 1 ⌊nts⌋).toNat : ℝ) - 1) * (i : ℝ))) := by
  have hcast : (max 1 ⌊(((max 1 ⌊nts⌋).toNat : ℕ) : ℝ)⌋).toNat = (max 1 ⌊nts⌋).toNat :=
    count_natCast _ (one_le_count nts)
  rw [alphaProd, getBetas_linear, linspace_eq_map _ _ _ (by rw [hcast]; exact hn), hcast,
    List.map_map]
  exact list_range_map_prod _ _

/-- Strict antitonicity of the LINEAR terminal alpha product in `betaEnd`
over the solver bracket, for `betaStart ∈ (0,1)` and at least two steps. -/
theorem linear_alphaProd_strict_anti (bs nts : ℝ) (hbs0 : 0 < bs) (hbs1 : bs < 1)
    (hn : 2 ≤ (max 1 ⌊nts⌋).toNat) (x y : ℝ)
    (hx : 1e-7 ≤ x) (hxy : x < y) (hy : y ≤ 0.999) :
    alphaProd (getBetas ⟨bs, y, nts, ScheduleType.LINEAR⟩) <
      alphaProd (getBetas ⟨bs, x, nts, ScheduleType.LINEAR⟩) := by
  obtain ⟨m, hm⟩ : ∃ m, (max 1 ⌊nts⌋).toNat = m + 1 :=
    ⟨(max 1 ⌊nts⌋).toNat - 1, by omega⟩
  have hm1 : 1 ≤ m := by omega
  have hmpos : (0 : ℝ) < (m : ℝ) := by
    have : 0 < m := by omega
    exact_mod_cast this
  have hden : (((max 1 ⌊nts⌋).toNat : ℕ) : ℝ) - 1 = (m : ℝ) := by
    rw [hm]
    push_cast
    ring
  have hfac : ∀ (be : ℝ), 0 < be → be ≤ 0.999 → ∀ i : ℕ, i ≤ m →
      0 < 1 - (bs + (be - bs) / (m : ℝ) * (i : ℝ)) := by
    intro be hbe0 hbe1 i hi
    have hb := linspace_val_bounds bs be ((max 1 ⌊nts⌋).toNat) hn i (by omega)
    rw [hden] at hb
    have hmax : max bs be < 1 := max_lt hbs1 (by linarith)
    linarith [hb.2]
  have hstep : ∀ i : ℕ,
      (x - bs) / (m : ℝ) * (i : ℝ) ≤ (y - bs) / (m : ℝ) * (i : ℝ) := by
    intro i
    apply mul_le_mul_of_nonneg_right _ (Nat.cast_nonneg i)
    exact (div_le_div_iff_of_pos_right hmpos).mpr (by linarith)
  have hlast : ∀ be : ℝ, bs + (be - bs) / (m : ℝ) * ((m : ℕ) : ℝ) = be := by
    intro be
    rw [div_mul_cancel₀ _ (ne_of_gt hmpos)]
    ring
  rw [linear_alphaProd_form bs x nts hn, linear_alphaProd_form bs y nts hn, hden, hm,
    Finset.prod_range_succ, Finset.prod_range_succ, hlast x, hlast y]
  have hQ : (∏ i in Finset.range m, (1 - (bs + (y - bs) / (m : ℝ) * (i : ℝ)))) ≤
      ∏ i in Finset.range m, (1 - (bs + (x - bs) / (m : ℝ) * (i : ℝ))) := by
    apply Finset.prod_le_prod
    · intro i hi
      exact le_of_lt (hfac y (by linarith) hy i (by
        rw [Finset.mem_range] at hi
        omega))
    · intro i hi
      linarith [hstep i]
  have hQy : 0 < ∏ i in Finset.range m, (1 - (bs + (y - bs) / (m : ℝ) * (i : ℝ))) := by
    apply Finset.prod_pos
    intro i hi
    exact hfac y (by linarith) hy i (by
      rw [Finset.mem_range] at hi
      omega)
  calc (∏ i in Finset.range m, (1 - (bs + (y - bs) / (m : ℝ) * (i : ℝ)))) * (1 - y)
      < (∏ i in Finset.range m, (1 - (bs + (y - bs) / (m : ℝ) * (i : ℝ)))) * (1 - x) :=
        mul_lt_mul_of_pos_left (by linarith) hQy
    _ ≤ (∏ i in Finset.range m, (1 - (bs + (x - bs) / (m : ℝ) * (i : ℝ)))) * (1 - x) :=
        mul_le_mul_of_nonneg_right hQ (by linarith)

theorem snr_div_lt (A1 A0 : ℝ) (_h1 : A1 < 1) (_h0 : 0 < A0) (h0' : A0 < 1)
    (h : A1 < A0) : A1 / (1 - A1) < A0 / (1 - A0) := by
  rw [div_lt_div_iff₀ (by linarith) (by linarith)]
  nlinarith

theorem getBetas_ne_nil (p : DiffusionParams) : getBetas p ≠ [] := by
  intro hcon
  have := getBetas_length p
  rw [hcon] at this
  have h1 := one_le_count p.numTimesteps
  simp at this
  omega

theorem alphaProd_pos_lt_one (betas : List ℝ) (hne : betas ≠ [])
    (hb : ∀ b ∈ betas, 0 < b ∧ b < 1) :
    0 < alphaProd betas ∧ alphaProd betas < 1 := by
  have hfac : ∀ x ∈ betas.map (fun b => 1 - b), 0 < x ∧ x < 1 := by
    intro x hx
    obtain ⟨b, hbmem, rfl⟩ := List.mem_map.mp hx
    have := hb b hbmem
    exact ⟨by linarith [this.2], by linarith [this.1]⟩
  refine ⟨(prod_pos_le_one _ hfac).1, prod_lt_one _ hfac ?_⟩
  simpa using hne

/-- Strict comparison of terminal `snrDb`: lowering `betaEnd` below `x0`
strictly raises the terminal `snrDb`, provided the terminal snr at `x0`
clears the `1e-20` clamp. -/
theorem linear_lastSnrDb_lt (bs nts x0 z : ℝ) (hbs0 : 0 < bs) (hbs1 : bs < 1)
    (hn : 2 ≤ (max 1 ⌊nts⌋).toNat)
    (hz1 : 1e-7 ≤ z) (hx0b : x0 ≤ 0.999) (hzx : z < x0)
    (hsnr : 1e-20 ≤ alphaProd (getBetas ⟨bs, x0, nts, ScheduleType.LINEAR⟩) /
      (1 - alphaProd (getBetas ⟨bs, x0, nts, ScheduleType.LINEAR⟩))) :
    lastSnrDb ⟨bs, x0, nts, ScheduleType.LINEAR⟩ <
      lastSnrDb ⟨bs, z, nts, ScheduleType.LINEAR⟩ := by
  have hx00 : 0 < x0 := by linarith
  have hx01 : x0 < 1 := by linarith
  have hz0 : 0 < z := by linarith
  have hz01 : z < 1 := by linarith
  have hA0 := alphaProd_pos_lt_one _ (getBetas_ne_nil ⟨bs, x0, nts, ScheduleType.LINEAR⟩)
    (linear_betas_mem bs x0 nts hbs0 hbs1 hx00 hx01)
  have hAz := alphaProd_pos_lt_one _ (getBetas_ne_nil ⟨bs, z, nts, ScheduleType.LINEAR⟩)
    (linear_betas_mem bs z nts hbs0 hbs1 hz0 hz01)
  have hAlt := linear_alphaProd_strict_anti bs nts hbs0 hbs1 hn z x0 hz1 hzx hx0b
  have hsnrlt := snr_div_lt _ _ hA0.2 hAz.1 hAz.2 hAlt
  rw [lastSnrDb_formula _ (getBetas_ne_nil _) hA0.2,
    lastSnrDb_formula _ (getBetas_ne_nil _) hAz.2,
    max_eq_right hsnr, max_eq_right (le_of_lt (lt_of_le_of_lt hsnr hsnrlt))]
  have hpos : (0 : ℝ) < alphaProd (getBetas ⟨bs, x0, nts, ScheduleType.LINEAR⟩) /
      (1 - alphaProd (getBetas ⟨bs, x0, nts, ScheduleType.LINEAR⟩)) := by
    linarith
  have := Real.logb_lt_logb (by norm_num : (1 : ℝ) < 10) hpos hsnrlt
  linarith

/-- Non-strict counterpart: raising `betaEnd` to `x0` or beyond cannot
raise the terminal `snrDb` above its value at `x0`. -/
theorem linear_lastSnrDb_le (bs nts x0 z : ℝ) (hbs0 : 0 < bs) (hbs1 : bs < 1)
    (hn : 2 ≤ (max 1 ⌊nts⌋).toNat)
    (hx0a : 1e-7 < x0) (hz2 : z ≤ 0.999) (hzx : x0 ≤ z) :
    lastSnrDb ⟨bs, z, nts, ScheduleType.LINEAR⟩ ≤
      lastSnrDb ⟨bs, x0, nts, ScheduleType.LINEAR⟩ := by
  rcases eq_or_lt_of_le hzx with h | h
  · rw [← h]
  · have hx00 : 0 < x0 := by linarith
    have hx01 : x0 < 1 := by linarith
    have hz0 : 0 < z := by linarith
    have hz01 : z < 1 := by linarith
    have hA0 := alphaProd_pos_lt_one _ (getBetas_ne_nil ⟨bs, x0, nts, ScheduleType.LINEAR⟩)
      (linear_betas_mem bs x0 nts hbs0 hbs1 hx00 hx01)
    have hAz := alphaProd_pos_lt_one _ (getBetas_ne_nil ⟨bs, z, nts, ScheduleType.LINEAR⟩)
      (linear_betas_mem bs z nts hbs0 hbs1 hz0 hz01)
    have hAlt := linear_alphaProd_strict_anti bs nts hbs0 hbs1 hn x0 z
      (le_of_lt hx0a) h hz2
    have hsnrlt := snr_div_lt _ _ hAz.2 hA0.1 hA0.2 hAlt
    rw [lastSnrDb_formula _ (getBetas_ne_nil _) hA0.2,
      lastSnrDb_formula _ (getBetas_ne_nil _) hAz.2]
    have hmax := max_le_max (le_refl (1e-20 : ℝ)) (le_of_lt hsnrlt)
    have hposz : (0 : ℝ) < max 1e-20
        (alphaProd (getBetas ⟨bs, z, nts, ScheduleType.LINEAR⟩) /
          (1 - alphaProd (getBetas ⟨bs, z, nts, ScheduleType.LINEAR⟩))) :=
      lt_of_lt_of_le (by norm_num) (le_max_left _ _)
    have := Real.logb_le_logb_of_le (by norm_num : (1 : ℝ) < 10) hposz hmax
    linarith

/-- Bracket invariant of the bisection when the target is the terminal
`snrDb` produced by `betaEnd = x0`: the root stays in `(low, high]`, the
bracket stays inside `[1e-7, 0.999]`, and its width halves each step. -/
theorem bisect_invariant (bs nts x0 : ℝ) (hbs0 : 0 < bs) (hbs1 : bs < 1)
    (hn : 2 ≤ (max 1 ⌊nts⌋).toNat)
    (hx0a : 1e-7 < x0) (hx0b : x0 ≤ 0.999)
    (hsnr : 1e-20 ≤ alphaProd (getBetas ⟨bs, x0, nts, ScheduleType.LINEAR⟩) /
      (1 - alphaProd (getBetas ⟨bs, x0, nts, ScheduleType.LINEAR⟩)))
    (k : ℕ) :
    1e-7 ≤ ((solveStep (lastSnrDb ⟨bs, x0, nts, ScheduleType.LINEAR⟩)
        bs nts ScheduleType.LINEAR)^[k] (0.0000001, 0.999)).1 ∧
    ((solveStep (lastSnrDb ⟨bs, x0, nts, ScheduleType.LINEAR⟩)
        bs nts ScheduleType.LINEAR)^[k] (0.0000001, 0.999)).1 < x0 ∧
    x0 ≤ ((solveStep (lastSnrDb ⟨bs, x0, nts, ScheduleType.LINEAR⟩)
        bs nts ScheduleType.LINEAR)^[k] (0.0000001, 0.999)).2 ∧
    ((solveStep (lastSnrDb ⟨bs, x0, nts, ScheduleType.LINEAR⟩)
        bs nts ScheduleType.LINEAR)^[k] (0.0000001, 0.999)).2 ≤ 0.999 ∧
    ((solveStep (lastSnrDb ⟨bs, x0, nts, ScheduleType.LINEAR⟩)
        bs nts ScheduleType.LINEAR)^[k] (0.0000001, 0.999)).2 -
      ((solveStep (lastSnrDb ⟨bs, x0, nts, ScheduleType.LINEAR⟩)
        bs nts ScheduleType.LINEAR)^[k] (0.0000001, 0.999)).1 =
      (0.999 - 0.0000001) / 2 ^ k := by
  induction k with
  | zero =>
    refine ⟨by norm_num, by norm_num [hx0a]; linarith, hx0b, le_refl _, by norm_num⟩
  | succ k ih =>
    obtain ⟨ih1, ih2, ih3, ih4, ih5⟩ := ih
    rw [Function.iterate_succ_apply']
    set q := (solveStep (lastSnrDb ⟨bs, x0, nts, ScheduleType.LINEAR⟩)
      bs nts ScheduleType.LINEAR)^[k] (0.0000001, 0.999) with hq
    have hq12 : q.1 < q.2 := lt_of_lt_of_le ih2 ih3
    have hmid1 : q.1 < (q.1 + q.2) / 2 := by linarith
    have hmid2 : (q.1 + q.2) / 2 < q.2 := by linarith
    have hhalf : ((0.999 - 0.0000001 : ℝ) / 2 ^ k) / 2 =
        (0.999 - 0.0000001 : ℝ) / 2 ^ (k + 1) := by
      rw [pow_succ]
      ring
    unfold solveStep
    by_cases hc : lastSnrDb ⟨bs, (q.1 + q.2) / 2, nts, ScheduleType.LINEAR⟩ >
        lastSnrDb ⟨bs, x0, nts, ScheduleType.LINEAR⟩
    · rw [if_pos hc]
      have hmidx : (q.1 + q.2) / 2 < x0 := by
        by_contra hge
        push_neg at hge
        have hle := linear_lastSnrDb_le bs nts x0 ((q.1 + q.2) / 2) hbs0 hbs1 hn
          hx0a (by linarith) hge
        exact absurd hc (not_lt.mpr hle)
      exact ⟨by simp only; linarith, by simp only; linarith, by simp only; linarith,
        by simp only; linarith, by simp only; linarith [hhalf]⟩
    · rw [if_neg hc]
      have hmidx : x0 ≤ (q.1 + q.2) / 2 := by
        by_contra hlt
        push_neg at hlt
        have hgt := linear_lastSnrDb_lt bs nts x0 ((q.1 + q.2) / 2) hbs0 hbs1 hn
          (by linarith) hx0b hlt hsnr
        exact hc hgt
      exact ⟨by simp only; linarith, by simp only; linarith, by simp only; linarith,
        by simp only; linarith, by simp only; linarith [hhalf]⟩

/-- C8 (amended): round-trip for LINEAR holds under the conditions the
counterexample forces: at least 2 effective steps (so `betaEnd` actually
influences the schedule), `betaStart ∈ (0,1)`, the original
`betaEnd0 ∈ (1e-7, 0.999]` (inside the solver bracket), and a terminal
`snr` at `betaEnd0` at or above the `1e-20` clamp. Then the solver run
with target equal to the terminal `snrDb` produced by `betaEnd0` returns
a value within `1e-6` of `betaEnd0`. -/
theorem solver_roundtrip (bs nts x0 : ℝ) (hbs0 : 0 < bs) (hbs1 : bs < 1)
    (hn : 2 ≤ (max 1 ⌊nts⌋).toNat) (hx0a : 1e-7 < x0) (hx0b : x0 ≤ 0.999)
    (hsnr : 1e-20 ≤ ((calculateSchedule ⟨bs, x0, nts, ScheduleType.LINEAR⟩).getLastD
      defaultRecord).snr) :
    |solveBetaEndForSNR (lastSnrDb ⟨bs, x0, nts, ScheduleType.LINEAR⟩)
      bs nts ScheduleType.LINEAR - x0| ≤ 1e-6 := by
  have hA0 := alphaProd_pos_lt_one _
    (getBetas_ne_nil ⟨bs, x0, nts, ScheduleType.LINEAR⟩)
    (linear_betas_mem bs x0 nts hbs0 hbs1 (by linarith) (by linarith))
  rw [lastSnr_formula _ (getBetas_ne_nil _) hA0.2] at hsnr
  obtain ⟨h1, h2, h3, h4, h5⟩ :=
    bisect_invariant bs nts x0 hbs0 hbs1 hn hx0a hx0b hsnr 40
  rw [solveBetaEndForSNR, abs_of_nonneg (by linarith)]
  have hw : (0.999 - 0.0000001) / 2 ^ (40 : ℕ) ≤ (1e-6 : ℝ) := by norm_num
  linarith

/-- Witness for the amended C8 at `betaStart = 1/4`, `numTimesteps = 2`,
`betaEnd0 = 1/2` (terminal snr is `3/5`, far above the clamp). -/
theorem solver_roundtrip_witness :
    |solveBetaEndForSNR (lastSnrDb ⟨(1 : ℝ)/4, 1/2, 2, ScheduleType.LINEAR⟩)
      ((1 : ℝ)/4) 2 ScheduleType.LINEAR - 1/2| ≤ 1e-6 := by
  have hcount2 : (max 1 ⌊(2 : ℝ)⌋).toNat = 2 := by
    rw [show ⌊(2 : ℝ)⌋ = (2 : ℤ) by norm_num]
    rfl
  have hb : getBetas ⟨(1 : ℝ)/4, 1/2, 2, ScheduleType.LINEAR⟩ = [1/4, 1/2] := by
    rw [getBetas_linear, hcount2,
      linspace_eq_map _ _ _ (by rw [count_natCast 2 (by norm_num)]),
      count_natCast 2 (by norm_num)]
    have hr : (List.range 2).map
        (fun (i : ℕ) => (1/4 : ℝ) + ((1/2 : ℝ) - 1/4) / (((2 : ℕ) : ℝ) - 1) * (i : ℝ)) =
        [(1/4 : ℝ) + ((1/2 : ℝ) - 1/4) / (((2 : ℕ) : ℝ) - 1) * ((0 : ℕ) : ℝ),
         (1/4 : ℝ) + ((1/2 : ℝ) - 1/4) / (((2 : ℕ) : ℝ) - 1) * ((1 : ℕ) : ℝ)] := rfl
    rw [hr]
    norm_num
  have hA : alphaProd (getBetas ⟨(1 : ℝ)/4, 1/2, 2, ScheduleType.LINEAR⟩) = 3/8 := by
    rw [hb, alphaProd]
    simp only [List.map_cons, List.map_nil, List.prod_cons, List.prod_nil]
    norm_num
  apply solver_roundtrip
  · norm_num
  · norm_num
  · rw [hcount2]
  · norm_num
  · norm_num
  · rw [lastSnr_formula _ (getBetas_ne_nil _) (by rw [hA]; norm_num), hA]
    norm_num

theorem halving_iterate (p : ℝ × ℝ) (k : ℕ) :
    (fun q : ℝ × ℝ => (q.1, (q.1 + q.2) / 2))^[k] p =
      (p.1, p.1 + (p.2 - p.1) / 2 ^ k) := by
  induction k with
  | zero =>
    rw [Function.iterate_zero_apply, pow_zero]
    have h2 : p.1 + (p.2 - p.1) / 1 = p.2 := by ring
    rw [h2]
  | succ k ih =>
    rw [Function.iterate_succ_apply', ih]
    show (p.1, (p.1 + (p.1 + (p.2 - p.1) / 2 ^ k)) / 2) = _
    refine congrArg (Prod.mk p.1) ?_
    rw [pow_succ]
    ring

/-- Counterexample to C8 as stated: with `numTimesteps = 1` the LINEAR
beta sequence is `[betaStart]`, independent of `betaEnd`, so the terminal
`snrDb` never exceeds the target and the solver halves `high` toward `low`
for all 40 iterations; with `betaEnd0 = 1/2` producing target `snrDb = 0`
it returns about `1e-7`, off by about `0.5`, far more than `1e-6`. -/
theorem solver_roundtrip_counterexample :
    1e-6 < |solveBetaEndForSNR (lastSnrDb ⟨(1 : ℝ)/2, 1/2, 1, ScheduleType.LINEAR⟩)
      ((1 : ℝ)/2) 1 ScheduleType.LINEAR - 1/2| := by
  have hval : ∀ be : ℝ, lastSnrDb ⟨(1 : ℝ)/2, be, 1, ScheduleType.LINEAR⟩ = 0 := by
    intro be
    rw [lastSnrDb, calculateSchedule, getBetas_one_linear]
    show (mkRecord 1 ((1 : ℝ)/2) (1 * (1 - 1/2))).snrDb = 0
    rw [mkRecord_snrDb, mkRecord_snr, if_neg (by norm_num),
      show (1 : ℝ) * (1 - 1/2) / (1 - 1 * (1 - 1/2)) = 1 by norm_num,
      max_eq_right (by norm_num : (1e-20 : ℝ) ≤ 1), Real.logb_one]
    ring
  have hfun : solveStep (lastSnrDb ⟨(1 : ℝ)/2, 1/2, 1, ScheduleType.LINEAR⟩)
      ((1 : ℝ)/2) 1 ScheduleType.LINEAR = fun q : ℝ × ℝ => (q.1, (q.1 + q.2) / 2) := by
    funext lh
    show (if lastSnrDb ⟨(1 : ℝ)/2, (lh.1 + lh.2) / 2, 1, ScheduleType.LINEAR⟩ >
        lastSnrDb ⟨(1 : ℝ)/2, 1/2, 1, ScheduleType.LINEAR⟩
      then ((lh.1 + lh.2) / 2, lh.2) else (lh.1, (lh.1 + lh.2) / 2)) =
      (lh.1, (lh.1 + lh.2) / 2)
    rw [hval, hval, if_neg (lt_irrefl (0 : ℝ))]
  rw [solveBetaEndForSNR, hfun, halving_iterate]
  apply lt_abs.mpr
  right
  norm_num

end BetaSchedule
